import Mathlib

/-!
Verification of the git-de export pipeline against its specification.

The development shallowly embeds the Go source of the repository:
* `path/filepath.Match` (the Go standard library glob matcher used by
  `shouldIgnore` / `shouldInclude` in `internal/exporter/exporter.go`),
* the Decision Engine (`filterAndProcess` and its helpers),
* the Transfer Engine (`CopyFile`, `copySequential`, and the per-file
  loop of `exportToZip`),
* the Manifest generator (`manifest.Generate`).

Go strings are modeled as `List Char`; a `Char` stands for one rune.
Byte-level UTF-8 details of the Go runtime are abstracted: one list
element corresponds to one byte of an ASCII string, which is faithful
for ASCII patterns and paths and keeps the rune/byte distinction of the
Go code irrelevant.  File contents are modeled as `List Nat` (bytes).
-/

namespace GitDe

/-- Go strings, modeled as lists of characters. -/
abbrev GoStr := List Char

/-- Conversion helper for writing Go string literals. -/
def str (s : String) : GoStr := s.toList

/-! ### Embedding of Go `path/filepath.Match`

Translated from `match.go` of the Go standard library (non-Windows
branch, `Separator = '/'`), which the exporter calls through
`filepath.Match(pattern, path)`.  The `utf8.RuneError` validity check of
`getEsc` is dropped together with the byte/rune distinction. -/

/-- Go `getEsc`: parse a character (possibly backslash-escaped) out of a
character-class chunk.  Errors mirror every `ErrBadPattern` return of the
Go function, including the final check that a parsed range character must
be followed by at least one more character. -/
def getEsc : List Char → Except Unit (Char × List Char)
  | [] => Except.error ()
  | c :: rest =>
    if c = '-' ∨ c = ']' then Except.error ()
    else if c = '\\' then
      match rest with
      | [] => Except.error ()
      | d :: rest2 => if rest2 = [] then Except.error () else Except.ok (d, rest2)
    else if rest = [] then Except.error () else Except.ok (c, rest)

theorem getEsc_length {l : List Char} {r : Char} {rest : List Char}
    (h : getEsc l = Except.ok (r, rest)) : rest.length < l.length := by
  match l with
  | [] => simp [getEsc] at h
  | c :: tl =>
    simp only [getEsc] at h
    repeat' split at h
    all_goals simp_all
    all_goals omega

/-- Go: the range-parsing loop inside the `'['` case of `matchChunk`
(the `for { ... }` loop collecting `lo`-`hi` ranges until the closing
`]`).  `r` is the rune being tested, `m` the accumulated match flag and
`n` the number of ranges parsed so far (`nrange`). -/
def parseRanges (r : Char) (chunk : List Char) (m : Bool) (n : Nat) :
    Except Unit (Bool × List Char) :=
  match chunk with
  | [] => Except.error ()
  | c :: rest =>
    if c = ']' ∧ 0 < n then Except.ok (m, rest)
    else
      match hlo : getEsc (c :: rest) with
      | Except.error e => Except.error e
      | Except.ok (lo, chunk1) =>
        if chunk1.head? = some '-' then
          match hhi : getEsc chunk1.tail with
          | Except.error e => Except.error e
          | Except.ok (hi, chunk2) =>
            parseRanges r chunk2
              (m || (decide (lo.toNat ≤ r.toNat) && decide (r.toNat ≤ hi.toNat))) (n + 1)
        else
          parseRanges r chunk1
            (m || (decide (lo.toNat ≤ r.toNat) && decide (r.toNat ≤ lo.toNat))) (n + 1)
  termination_by chunk.length
  decreasing_by
  · have h1 := getEsc_length hlo
    have h2 := getEsc_length hhi
    have h3 : chunk1.tail.length ≤ chunk1.length := by
      cases chunk1 <;> simp
    simp at h1 ⊢
    omega
  · have h1 := getEsc_length hlo
    simp at h1 ⊢
    omega

theorem parseRanges_length {r : Char} {chunk : List Char} {m : Bool} {n : Nat}
    {mt : Bool} {rest : List Char}
    (h : parseRanges r chunk m n = Except.ok (mt, rest)) :
    rest.length < chunk.length := by
  generalize hk : chunk.length = k
  induction k using Nat.strong_induction_on generalizing chunk m n mt rest with
  | _ k ih =>
    subst hk
    match chunk with
    | [] => simp [parseRanges] at h
    | c :: tl =>
      rw [parseRanges] at h
      split at h
      · simp at h
        simp [← h.2]
      · split at h
        · exact absurd h (by simp)
        · rename_i lo chunk1 hlo
          have h1 := getEsc_length hlo
          split at h
          · split at h
            · exact absurd h (by simp)
            · rename_i hi chunk2 hhi
              have h2 := getEsc_length hhi
              have h3 : chunk1.tail.length ≤ chunk1.length := by
                cases chunk1 <;> simp
              have h4 := ih chunk2.length (by simp at h1 ⊢; omega) h rfl
              simp at h1 ⊢
              omega
          · have h4 := ih chunk1.length (by simp at h1 ⊢; omega) h rfl
            simp at h1 ⊢
            omega

/-- Strip a leading `'^'` (class negation) from the remainder of a
character class, as done at the top of the `'['` case of Go `matchChunk`
(`if len(chunk) > 0 && chunk[0] == '^'`). -/
def stripCaret (l : List Char) : Bool × List Char :=
  if l.head? = some '^' then (true, l.tail) else (false, l)

theorem stripCaret_length (l : List Char) : (stripCaret l).2.length ≤ l.length := by
  rw [stripCaret]
  split
  · cases l <;> simp
  · simp

/-- Go `matchChunk`: match a star-free chunk of the pattern against the
head of `s`.  Returns the unconsumed tail of `s` and whether the chunk
matched; an `Except.error` mirrors every `ErrBadPattern` return.  The
`failed` flag mirrors the Go local of the same name: after a mismatch the
chunk is still consumed to completion so that pattern validity is
checked, but `s` is no longer read. -/
def matchChunk (chunk s : List Char) (failed : Bool) :
    Except Unit (List Char × Bool) :=
  match chunk with
  | [] => if failed then Except.ok ([], false) else Except.ok (s, true)
  | c :: rest =>
    let failed1 := failed || s.isEmpty
    if c = '[' then
      let r := if failed1 then Char.ofNat 0 else s.headI
      let s1 := if failed1 then s else s.tail
      match hpr : parseRanges r (stripCaret rest).2 false 0 with
      | Except.error e => Except.error e
      | Except.ok (mtch, chunk2) =>
        matchChunk chunk2 s1 (failed1 || (mtch == (stripCaret rest).1))
    else if c = '?' then
      if failed1 then matchChunk rest s failed1
      else matchChunk rest s.tail (decide (s.headI = '/'))
    else if c = '\\' then
      match rest with
      | [] => Except.error ()
      | d :: rest2 =>
        if failed1 then matchChunk rest2 s failed1
        else matchChunk rest2 s.tail (decide (¬ d = s.headI))
    else
      if failed1 then matchChunk rest s failed1
      else matchChunk rest s.tail (decide (¬ c = s.headI))
  termination_by chunk.length
  decreasing_by
  · exact Nat.lt_of_lt_of_le (parseRanges_length hpr)
      (Nat.le_trans (stripCaret_length _) (by simp))
  all_goals simp
  all_goals omega

/-- Go `scanChunk` scanning loop: split the pattern after the leading
stars into the maximal star-free chunk and the rest.  `inrange` tracks
whether the scanner is inside a `[...]` class (where `*` is literal);
a backslash consumes the following character into the chunk. -/
def scanTail : List Char → Bool → List Char × List Char
  | [], _ => ([], [])
  | c :: rest, inrange =>
    if c = '*' ∧ inrange = false then ([], c :: rest)
    else if c = '\\' then
      match rest with
      | [] => ([c], [])
      | d :: rest2 =>
        let pr := scanTail rest2 inrange
        (c :: d :: pr.1, pr.2)
    else
      let ir2 := if c = '[' then true else if c = ']' then false else inrange
      let pr := scanTail rest ir2
      (c :: pr.1, pr.2)

theorem scanTail_cons (c : Char) (tl : List Char) (ir : Bool) :
    scanTail (c :: tl) ir =
      if c = '*' ∧ ir = false then ([], c :: tl)
      else if c = '\\' then
        match tl with
        | [] => ([c], [])
        | d :: rest2 =>
          let pr := scanTail rest2 ir
          (c :: d :: pr.1, pr.2)
      else
        let ir2 := if c = '[' then true else if c = ']' then false else ir
        let pr := scanTail tl ir2
        (c :: pr.1, pr.2) := by
  rw [scanTail.eq_def]

theorem scanTail_le (l : List Char) (ir : Bool) :
    (scanTail l ir).2.length ≤ l.length := by
  generalize hk : l.length = k
  induction k using Nat.strong_induction_on generalizing l ir with
  | _ k ih =>
    subst hk
    match l with
    | [] => simp [scanTail]
    | c :: tl =>
      rw [scanTail_cons]
      split
      · simp
      · split
        · match tl with
          | [] => simp
          | d :: tl2 =>
            have := ih tl2.length (by simp; omega) tl2 ir rfl
            simp
            omega
        · simp
          exact Nat.le_succ_of_le (ih tl.length (by simp) tl _ rfl)

theorem scanTail_lt {l : List Char} (ir : Bool) (h : l ≠ [])
    (hstar : l.head? ≠ some '*') : (scanTail l ir).2.length < l.length := by
  match l with
  | c :: tl =>
    have hc : ¬ c = '*' := by
      intro hcon
      exact hstar (by simp [hcon])
    rw [scanTail_cons]
    split
    · rename_i hcon
      exact absurd hcon.1 hc
    · split
      · match tl with
        | [] => simp
        | d :: tl2 =>
          have := scanTail_le tl2 ir
          simp
          omega
      · simp
        exact Nat.lt_succ_of_le (scanTail_le tl _)

/-- Go `scanChunk`: strip leading `*`s, then return the star flag, the
next star-free chunk and the remaining pattern. -/
def scanChunk (pattern : List Char) : Bool × List Char × List Char :=
  let stars := pattern.takeWhile (· == '*')
  let p1 := pattern.dropWhile (· == '*')
  let pr := scanTail p1 false
  (!stars.isEmpty, pr.1, pr.2)

theorem dropWhileStar_head (l : List Char) :
    (l.dropWhile (· == '*')).head? ≠ some '*' := by
  induction l with
  | nil => simp
  | cons x xs ih =>
    rw [List.dropWhile]
    split
    · exact ih
    · rename_i hx
      simp at hx
      simp [hx]

theorem scanChunk_length {pattern : List Char} (h : pattern ≠ []) :
    (scanChunk pattern).2.2.length < pattern.length := by
  have hb := scanTail_le (pattern.dropWhile (· == '*')) false
  show (scanTail (pattern.dropWhile (· == '*')) false).2.length < pattern.length
  by_cases hd : pattern.dropWhile (· == '*') = pattern
  · have hne : pattern.dropWhile (· == '*') ≠ [] := by
      rw [hd]
      exact h
    have hlt := scanTail_lt false hne (dropWhileStar_head pattern)
    rw [hd] at hlt
    rw [hd]
    exact hlt
  · have hsub : (pattern.dropWhile (· == '*')).length ≤ pattern.length :=
      (List.dropWhile_sublist (p := (· == '*')) (l := pattern)).length_le
    have hstrict : (pattern.dropWhile (· == '*')).length < pattern.length := by
      rcases Nat.lt_or_ge (pattern.dropWhile (· == '*')).length pattern.length with hlt | hge
      · exact hlt
      · have heq : (pattern.dropWhile (· == '*')).length = pattern.length := by omega
        exact absurd ((List.dropWhile_sublist (p := (· == '*'))
          (l := pattern)).eq_of_length heq) hd
    omega

/-- Result of Go `filepath.Match`: the `matched` boolean and whether a
non-nil `ErrBadPattern` error was returned alongside it. -/
structure MatchRes where
  matched : Bool
  isErr : Bool
deriving DecidableEq, Repr

/-- Go `Match`, inner `if star { ... }` loop: try to match `chunk` at
every later position of `name` (stopping at a separator).  `Except.ok
(some t)` corresponds to the `name = t; continue Pattern` exit,
`Except.ok none` to falling out of the loop, and `Except.error` to the
`return false, err` exit. -/
def starLoop (chunk restPat : List Char) : List Char → Except Unit (Option (List Char))
  | [] => Except.ok none
  | c :: srest =>
    if c = '/' then Except.ok none
    else
      match matchChunk chunk srest false with
      | Except.error _ => Except.error ()
      | Except.ok (t, ok) =>
        if ok then
          if restPat = [] ∧ ¬ t = [] then starLoop chunk restPat srest
          else Except.ok (some t)
        else starLoop chunk restPat srest

/-- Go `Match`, final loop: before returning `false` with no error,
check that the remainder of the pattern is syntactically valid. -/
def restValid (p : List Char) : MatchRes :=
  match p with
  | [] => ⟨false, false⟩
  | p0 :: prest =>
    let sc := scanChunk (p0 :: prest)
    match matchChunk sc.2.1 [] false with
    | Except.error _ => ⟨false, true⟩
    | Except.ok _ => restValid sc.2.2
  termination_by p.length
  decreasing_by
  exact scanChunk_length (by simp)

/-- Go `filepath.Match(pattern, name)` (non-Windows), translated from
the `Pattern:` loop of `match.go`.  Every `return` site of the Go
function maps to a `MatchRes` with the same `matched` value and error
presence. -/
def goMatch (pattern name : List Char) : MatchRes :=
  match pattern with
  | [] => ⟨name.isEmpty, false⟩
  | p0 :: prest =>
    let sc := scanChunk (p0 :: prest)
    if sc.1 = true ∧ sc.2.1 = [] then ⟨!name.contains '/', false⟩
    else
      match matchChunk sc.2.1 name false with
      | Except.error _ => ⟨false, true⟩
      | Except.ok (t, ok) =>
        if ok = true ∧ (t = [] ∨ ¬ sc.2.2 = []) then goMatch sc.2.2 t
        else if sc.1 = true then
          match starLoop sc.2.1 sc.2.2 name with
          | Except.error _ => ⟨false, true⟩
          | Except.ok (some t2) => goMatch sc.2.2 t2
          | Except.ok none => restValid sc.2.2
        else restValid sc.2.2
  termination_by pattern.length
  decreasing_by
  all_goals exact scanChunk_length (by simp)

/-- Go `filepath.Base` (volume handling is empty on non-Windows):
trailing separators are stripped, then everything up to the final
separator is discarded; an empty path yields `"."` and an all-separator
path yields `"/"`. -/
def goBase (path : List Char) : List Char :=
  if path = [] then ['.']
  else
    let p1 := (path.reverse.dropWhile (· == '/')).reverse
    let p2 := (p1.reverse.takeWhile (· != '/')).reverse
    if p2 = [] then ['/'] else p2

/-! ### Data model (`internal/git`)

From `internal/git/git.go`: `FileStatus` is a string; `FileChange`
carries status, current path and (for renames/copies) the prior path. -/

/-- Go `git.FileStatus` (a string type). -/
abbrev FileStatus := GoStr

def StatusAdded : FileStatus := str "A"
def StatusModified : FileStatus := str "M"
def StatusDeleted : FileStatus := str "D"
def StatusRenamed : FileStatus := str "R"
def StatusCopied : FileStatus := str "C"

/-- Go `git.FileChange`. -/
structure FileChange where
  status : FileStatus
  path : GoStr
  oldPath : GoStr
deriving DecidableEq, Repr

/-- Go `git.FileChange.ShouldCopy`. -/
def ShouldCopy (fc : FileChange) : Bool :=
  fc.status == StatusAdded || fc.status == StatusModified ||
    fc.status == StatusRenamed || fc.status == StatusCopied

/-! ### Exporter configuration and environment (`internal/exporter`)

`Options` carries the fields of `exporter.Options` that the claims
depend on.  `Provider` models the `GitExporter` interface plus the
outcome of the filesystem and archive-writer calls the Transfer Engine
makes: `getFileContent` and `isFileOutsideRepo` are the interface
methods (the commit argument of `GetFileContent` is always
`opts.toCommit` at the modeled call sites); `mkdirOk`/`writeOk` give the
success of `os.MkdirAll`/`os.WriteFile` on a target path, and
`zipCreateOk`/`zipWriteOk` the success of `zip.Writer.Create` and of
writing the entry body for a given archive entry name.  All are pure
functions of the path, modeling one fixed run environment. -/

structure Options where
  toCommit : GoStr
  outputDir : GoStr
  ignorePatterns : List GoStr
  includePatterns : List GoStr
  maxSize : Int

structure Provider where
  getFileContent : GoStr → GoStr → Except Unit (List Nat)
  isFileOutsideRepo : GoStr → Bool
  mkdirOk : GoStr → Bool
  writeOk : GoStr → Bool
  zipCreateOk : GoStr → Bool
  zipWriteOk : GoStr → Bool

/-- Go `Exporter.shouldIgnore`: a path is ignored when any ignore
pattern matches the full path or its base name.  The error result of
`filepath.Match` is discarded (`matched, _ :=`), exactly as in the
source. -/
def shouldIgnore (opts : Options) (path : GoStr) : Bool :=
  opts.ignorePatterns.any fun pattern =>
    (goMatch pattern path).matched || (goMatch pattern (goBase path)).matched

/-- Go `Exporter.shouldInclude`: same dual match over the include
patterns. -/
def shouldInclude (opts : Options) (path : GoStr) : Bool :=
  opts.includePatterns.any fun pattern =>
    (goMatch pattern path).matched || (goMatch pattern (goBase path)).matched

/-- Per-file classification outcome of the Decision Engine, named after
the dispositions of the specification.  Each skip constructor
corresponds to one `continue` branch of `filterAndProcess` (in source
order: the deleted check, the `ShouldCopy` check, the include check, the
ignore check, the outside-repo check, the size check); `willExport`
corresponds to `result = append(result, c)`. -/
inductive Disposition where
  | willExport
  | skippedDeleted
  | skippedUnrecognized
  | skippedNotIncluded
  | skippedIgnored
  | skippedOutsideRoot
  | skippedTooLarge
deriving DecidableEq, Repr

/-- The size probe of `filterAndProcess`: with `maxSize > 0` the content
is fetched and the file is skipped only when the fetch succeeds and the
length strictly exceeds `maxSize` (`err == nil && int64(len(content)) >
e.opts.MaxSize`). -/
def sizeExceeds (env : Provider) (opts : Options) (c : FileChange) : Bool :=
  decide (0 < opts.maxSize) &&
    match env.getFileContent opts.toCommit c.path with
    | Except.ok content => decide ((content.length : Int) > opts.maxSize)
    | Except.error _ => false

/-- The body of the `filterAndProcess` loop of
`internal/exporter/exporter.go`, one `FileChange` at a time, with each
`continue` branch mapped to its disposition. -/
def classifyOne (env : Provider) (opts : Options) (c : FileChange) : Disposition :=
  if c.status = StatusDeleted then Disposition.skippedDeleted
  else if ¬ ShouldCopy c = true then Disposition.skippedUnrecognized
  else if ¬ opts.includePatterns = [] ∧ ¬ shouldInclude opts c.path = true then
    Disposition.skippedNotIncluded
  else if shouldIgnore opts c.path = true then Disposition.skippedIgnored
  else if env.isFileOutsideRepo c.path = true then Disposition.skippedOutsideRoot
  else if sizeExceeds env opts c = true then Disposition.skippedTooLarge
  else Disposition.willExport

/-- Go `Exporter.filterAndProcess`: keep exactly the changes the loop
appends to `result`, in input order. -/
def filterAndProcess (env : Provider) (opts : Options)
    (changes : List FileChange) : List FileChange :=
  changes.filter fun c => classifyOne env opts c == Disposition.willExport

/-- First-match evaluation of an ordered rule list, the shape the
specification prescribes for the Decision Engine ("first matching rule
wins"), falling through to `willExport`. -/
def firstMatch (rules : List ((FileChange → Bool) × Disposition))
    (c : FileChange) : Disposition :=
  match rules with
  | [] => Disposition.willExport
  | (p, d) :: rs => if p c then d else firstMatch rs c

/-! ### Transfer Engine (`internal/exporter`, tree sink) -/

/-- Go `filepath.Join(outputDir, path)` as used for the target path.
The `Clean` normalization Go applies to the joined result is not
modeled; no claim below depends on it. -/
def goJoin (a b : GoStr) : GoStr := a ++ str "/" ++ b

/-- Go `filepath.Dir(targetPath)` for the `MkdirAll` call: the directory
component of the path (again without the `Clean` normalization, which no
claim below depends on). -/
def goDir (p : GoStr) : GoStr := (p.reverse.dropWhile (· != '/')).reverse

/-- Go `Exporter.CopyFile`: skip with a nil error if the provider flags
the path as outside the repository; otherwise fetch the content, create
the target directory, write the file.  `Except.ok none` is the
outside-repo skip (nothing fetched, nothing written), `Except.ok (some
(targetPath, content))` a completed write, `Except.error ()` any failed
step. -/
def CopyFile (env : Provider) (opts : Options) (change : FileChange) :
    Except Unit (Option (GoStr × List Nat)) :=
  if env.isFileOutsideRepo change.path then Except.ok none
  else
    match env.getFileContent opts.toCommit change.path with
    | Except.error e => Except.error e
    | Except.ok content =>
      let targetPath := goJoin opts.outputDir change.path
      if ¬ env.mkdirOk (goDir targetPath) = true then Except.error ()
      else if ¬ env.writeOk targetPath = true then Except.error ()
      else Except.ok (some (targetPath, content))

/-- State threaded through `copySequential`: the two counters plus the
outcome records.  `failures` lists the paths recorded through
`AddError`; `successes` lists the paths whose `CopyFile` returned nil
(for the tree sink these are the files present in the sink, plus the
outside-repo skips). -/
structure SeqState where
  successCount : Nat
  failedCount : Nat
  successes : List GoStr
  failures : List GoStr
deriving DecidableEq, Repr

/-- One iteration of the `copySequential` loop. -/
def copyStep (env : Provider) (opts : Options) (st : SeqState)
    (f : FileChange) : SeqState :=
  match CopyFile env opts f with
  | Except.error _ =>
    ⟨st.successCount, st.failedCount + 1, st.successes, st.failures ++ [f.path]⟩
  | Except.ok _ =>
    ⟨st.successCount + 1, st.failedCount, st.successes ++ [f.path], st.failures⟩

/-- Go `Exporter.copySequential`: fold the copy step over the export set
in order, starting from zero counters. -/
def copySequential (env : Provider) (opts : Options)
    (files : List FileChange) : SeqState :=
  files.foldl (copyStep env opts) ⟨0, 0, [], []⟩

/-- Go `Exporter.copyConcurrent`, modeled at the level the claims are
stated: without a cancellation signal every file is pulled from the
queue and processed by exactly one worker, each completion atomically
updating one shared counter.  A completed parallel run therefore
performs the same per-file steps in some interleaving order `sigma`, a
permutation of the export set; the run is modeled as the sequential fold
over that order. -/
def copyConcurrentRun (env : Provider) (opts : Options)
    (sigma : List FileChange) : SeqState :=
  sigma.foldl (copyStep env opts) ⟨0, 0, [], []⟩

/-! ### Transfer Engine (`internal/exporter`, ZIP sink) -/

/-- State of the `exportToZip` per-file loop: counters, the error list
accumulated through `AddError`, and the archive entries written so far. -/
structure ZipState where
  successCount : Nat
  failedCount : Nat
  errors : List GoStr
  entries : List (GoStr × List Nat)
deriving DecidableEq, Repr

/-- The per-file loop of Go `Exporter.exportToZip` (lines 243-269): a
content fetch failure is recorded and the loop continues; a failure of
`w.Create` or of writing the entry body returns an error immediately,
aborting the remaining files.  The aborted state is carried in the
`Except.error` so the outcome at the abort point can be inspected. -/
def exportToZipFiles (env : Provider) (opts : Options) :
    List FileChange → ZipState → Except ZipState ZipState
  | [], st => Except.ok st
  | file :: rest, st =>
    match env.getFileContent opts.toCommit file.path with
    | Except.error _ =>
      exportToZipFiles env opts rest
        ⟨st.successCount, st.failedCount + 1, st.errors ++ [file.path], st.entries⟩
    | Except.ok content =>
      if ¬ env.zipCreateOk file.path = true then Except.error st
      else if ¬ env.zipWriteOk file.path = true then Except.error st
      else
        exportToZipFiles env opts rest
          ⟨st.successCount + 1, st.failedCount, st.errors,
            st.entries ++ [(file.path, content)]⟩

/-! ### Manifest generator (`internal/manifest`) -/

/-- Byte-wise lexicographic string comparison, the order used by Go
`sort.Strings` (UTF-8 byte order coincides with code-point order). -/
def goStrLe : GoStr → GoStr → Bool
  | [], _ => true
  | _ :: _, [] => false
  | a :: as, b :: bs =>
    if a.toNat < b.toNat then true
    else if b.toNat < a.toNat then false
    else goStrLe as bs

/-- Go `sort.Strings`.  `sort.Strings` uses an unstable sort, but equal
keys are identical strings, so its result is the unique sorted
permutation, computed here with `mergeSort`. -/
def sortGo (l : List GoStr) : List GoStr := l.mergeSort goStrLe

/-- Go `strings.TrimSuffix`. -/
def goTrimSuffix (s suffix : GoStr) : GoStr :=
  if suffix.isSuffixOf s then s.take (s.length - suffix.length) else s

/-- Go `manifest.Generate` (`src/unnamed/part_015`): bucket the changes
by status (the collection loop appends in input order, which the
per-status `filter`s reproduce), sort each bucket, then build the text
with a header line and `- entry` lines per non-empty bucket and trim the
final newline. -/
def Generate (changes : List FileChange) : GoStr :=
  let newFiles := sortGo ((changes.filter fun c => c.status = str "A").map (·.path))
  let modified := sortGo ((changes.filter fun c => c.status = str "M").map (·.path))
  let renamed := sortGo ((changes.filter fun c => c.status = str "R").map
    fun c => c.path ++ str " (previously " ++ c.oldPath ++ str ")")
  let deleted := sortGo ((changes.filter fun c => c.status = str "D").map (·.path))
  let sb :=
    (if newFiles = [] then [] else
      str "new files:\n" ++ (newFiles.map fun f => str "- " ++ f ++ str "\n").flatten) ++
    (if modified = [] then [] else
      str "modified:\n" ++ (modified.map fun f => str "- " ++ f ++ str "\n").flatten) ++
    (if renamed = [] then [] else
      str "renamed:\n" ++ (renamed.map fun f => str "- " ++ f ++ str "\n").flatten) ++
    (if deleted = [] then [] else
      str "deleted:\n" ++ (deleted.map fun f => str "- " ++ f ++ str "\n").flatten)
  goTrimSuffix sb (str "\n")

/-- Join lines with a newline separator and no trailing newline (the
rendering the specification describes). -/
def joinNl : List GoStr → GoStr
  | [] => []
  | [x] => x
  | x :: xs => x ++ '\n' :: joinNl xs

/-- A manifest section as the specification words it: emitted only when
non-empty, a header line followed by one `- entry` line per entry. -/
def specSection (header : GoStr) (entries : List GoStr) : List GoStr :=
  if entries = [] then [] else header :: entries.map fun e => str "- " ++ e

/-- The manifest as the specification describes it: the four status
groups in the fixed order new, modified, renamed, deleted, each present
only when non-empty, entries sorted ascending, renamed entries formatted
`path (previously oldPath)`, all lines joined by single newlines with no
trailing blank line. -/
def manifestSpec (changes : List FileChange) : GoStr :=
  joinNl
    (specSection (str "new files:")
        (sortGo ((changes.filter fun c => c.status = str "A").map (·.path))) ++
      specSection (str "modified:")
        (sortGo ((changes.filter fun c => c.status = str "M").map (·.path))) ++
      specSection (str "renamed:")
        (sortGo ((changes.filter fun c => c.status = str "R").map
          fun c => c.path ++ str " (previously " ++ c.oldPath ++ str ")")) ++
      specSection (str "deleted:")
        (sortGo ((changes.filter fun c => c.status = str "D").map (·.path))))

/-! ### Shared concrete instances for witnesses -/

/-- A trivial environment: every fetch succeeds with empty content,
nothing is outside the repository, every filesystem and archive
operation succeeds. -/
def envTriv : Provider :=
  ⟨fun _ _ => Except.ok [], fun _ => false, fun _ => true, fun _ => true,
    fun _ => true, fun _ => true⟩

/-- Default options: no patterns, no size limit. -/
def optsDefault : Options := ⟨str "HEAD", str "out", [], [], 0⟩

/-! ### Claim C5 -/

/-- C5: for every `FileChange` whose status is Deleted, classification
yields `skippedDeleted` and never `willExport`, so deleted files are
never placed in the export set. -/
theorem deleted_never_exported (env : Provider) (opts : Options) (c : FileChange)
    (h : c.status = StatusDeleted) :
    classifyOne env opts c = Disposition.skippedDeleted ∧
      classifyOne env opts c ≠ Disposition.willExport ∧
      filterAndProcess env opts [c] = [] := by
  refine ⟨by simp [classifyOne, h], by simp [classifyOne, h], ?_⟩
  simp [filterAndProcess, classifyOne, h]

/-- Witness for C5 at a concrete deleted change. -/
theorem deleted_never_exported_witness :
    (⟨str "D", str "gone.go", []⟩ : FileChange).status = StatusDeleted ∧
      (classifyOne envTriv optsDefault ⟨str "D", str "gone.go", []⟩ =
          Disposition.skippedDeleted ∧
        classifyOne envTriv optsDefault ⟨str "D", str "gone.go", []⟩ ≠
          Disposition.willExport ∧
        filterAndProcess envTriv optsDefault [⟨str "D", str "gone.go", []⟩] = []) :=
  ⟨by decide, deleted_never_exported envTriv optsDefault _ (by decide)⟩

/-! ### Claim C3 -/

/-- C3: classification evaluates the rules in the fixed precedence
order deleted-status, unrecognized-status, not-included, ignored,
outside-tree-root, too-large, assigning the disposition of the first
rule that matches and falling through to `willExport` when none does. -/
theorem classify_is_first_match (env : Provider) (opts : Options) (c : FileChange) :
    classifyOne env opts c =
      firstMatch
        [(fun c => c.status == StatusDeleted, Disposition.skippedDeleted),
         (fun c => ! ShouldCopy c, Disposition.skippedUnrecognized),
         (fun c => ! opts.includePatterns.isEmpty && ! shouldInclude opts c.path,
           Disposition.skippedNotIncluded),
         (fun c => shouldIgnore opts c.path, Disposition.skippedIgnored),
         (fun c => env.isFileOutsideRepo c.path, Disposition.skippedOutsideRoot),
         (fun c => sizeExceeds env opts c, Disposition.skippedTooLarge)] c := by
  simp only [classifyOne, firstMatch]
  split_ifs <;> simp_all

/-! ### Claim C4 -/

/-- C4: for a file that passed the include, ignore and location checks,
the disposition is `skippedTooLarge` iff `maxSize > 0`, the size-probe
fetch succeeds and the content length strictly exceeds `maxSize`;
a length equal to `maxSize` is exported, `maxSize = 0` disables the size
check, and a failed size probe lets the file proceed to export. -/
theorem size_check_boundary (env : Provider) (opts : Options) (c : FileChange)
    (hdel : ¬ c.status = StatusDeleted)
    (hcopy : ShouldCopy c = true)
    (hinc : opts.includePatterns = [] ∨ shouldInclude opts c.path = true)
    (hign : shouldIgnore opts c.path = false)
    (hout : env.isFileOutsideRepo c.path = false) :
    (classifyOne env opts c = Disposition.skippedTooLarge ↔
      0 < opts.maxSize ∧
        ∃ content, env.getFileContent opts.toCommit c.path = Except.ok content ∧
          opts.maxSize < (content.length : Int)) ∧
    (opts.maxSize = 0 → classifyOne env opts c = Disposition.willExport) ∧
    (∀ content, env.getFileContent opts.toCommit c.path = Except.ok content →
      (content.length : Int) = opts.maxSize →
      classifyOne env opts c = Disposition.willExport) ∧
    (∀ e, env.getFileContent opts.toCommit c.path = Except.error e →
      classifyOne env opts c = Disposition.willExport) := by
  have hcl : classifyOne env opts c =
      if sizeExceeds env opts c = true then Disposition.skippedTooLarge
      else Disposition.willExport := by
    rcases hinc with hinc | hinc <;>
      simp [classifyOne, hdel, hcopy, hign, hout, hinc]
  refine ⟨?_, ?_, ?_, ?_⟩
  · rw [hcl]
    constructor
    · intro h
      by_cases hs : sizeExceeds env opts c = true
      · rw [sizeExceeds] at hs
        simp at hs
        obtain ⟨h1, h2⟩ := hs
        match hg : env.getFileContent opts.toCommit c.path with
        | Except.error e => rw [hg] at h2; simp at h2
        | Except.ok content =>
          rw [hg] at h2
          simp at h2
          exact ⟨h1, content, rfl, h2⟩
      · simp [hs] at h
    · intro ⟨h1, content, hg, h2⟩
      have hs : sizeExceeds env opts c = true := by
        rw [sizeExceeds, hg]
        simp [h1, h2]
      simp [hs]
  · intro h0
    have hs : sizeExceeds env opts c = false := by
      rw [sizeExceeds]
      simp [h0]
    rw [hcl, hs]
    simp
  · intro content hg heq
    have hs : sizeExceeds env opts c = false := by
      rw [sizeExceeds, hg]
      simp
      intro
      omega
    rw [hcl, hs]
    simp
  · intro e hg
    have hs : sizeExceeds env opts c = false := by
      rw [sizeExceeds, hg]
      simp
    rw [hcl, hs]
    simp

/-- Witness for C4: a two-byte file with `maxSize = 2` is exported. -/
theorem size_check_boundary_witness :
    (¬ (⟨str "M", str "a.go", []⟩ : FileChange).status = StatusDeleted ∧
      ShouldCopy ⟨str "M", str "a.go", []⟩ = true ∧
      (⟨str "HEAD", str "out", [], [], 2⟩ : Options).includePatterns = [] ∧
      shouldIgnore ⟨str "HEAD", str "out", [], [], 2⟩ (str "a.go") = false ∧
      (⟨fun _ _ => Except.ok [7, 7], fun _ => false, fun _ => true, fun _ => true,
          fun _ => true, fun _ => true⟩ : Provider).isFileOutsideRepo (str "a.go") = false) ∧
      classifyOne
        ⟨fun _ _ => Except.ok [7, 7], fun _ => false, fun _ => true, fun _ => true,
          fun _ => true, fun _ => true⟩
        ⟨str "HEAD", str "out", [], [], 2⟩ ⟨str "M", str "a.go", []⟩ =
        Disposition.willExport := by
  refine ⟨⟨by decide, by decide, by decide, by decide, by decide⟩, ?_⟩
  exact (size_check_boundary _ _ _ (by decide) (by decide) (Or.inl (by decide))
    (by decide) (by decide)).2.2.1 [7, 7] rfl (by decide)

/-! ### Claim C2 -/

/-- C2 (amended): a path matching an ignore pattern is never classified
`willExport`; when the change additionally passes the earlier rules of
the precedence chain (not deleted, copyable status, include check), the
disposition is exactly `skippedIgnored`. -/
theorem ignore_overrides_include (env : Provider) (opts : Options) (c : FileChange)
    (hig : shouldIgnore opts c.path = true) :
    classifyOne env opts c ≠ Disposition.willExport ∧
      (¬ c.status = StatusDeleted → ShouldCopy c = true →
        (opts.includePatterns = [] ∨ shouldInclude opts c.path = true) →
        classifyOne env opts c = Disposition.skippedIgnored) := by
  constructor
  · rw [classifyOne]
    split_ifs <;> simp_all
  · intro hdel hcopy hinc
    rcases hinc with hinc | hinc <;> simp [classifyOne, hdel, hcopy, hig, hinc]

/-- Counterexample for C2 as stated: a deleted change whose path matches
both an include and an ignore pattern is classified `skippedDeleted`,
not `skippedIgnored`. -/
theorem ignore_overrides_include_cex :
    shouldIgnore ⟨str "HEAD", str "out", [str "a"], [str "a"], 0⟩ (str "a") = true ∧
      shouldInclude ⟨str "HEAD", str "out", [str "a"], [str "a"], 0⟩ (str "a") = true ∧
      classifyOne envTriv ⟨str "HEAD", str "out", [str "a"], [str "a"], 0⟩
          ⟨str "D", str "a", []⟩ = Disposition.skippedDeleted ∧
      ¬ classifyOne envTriv ⟨str "HEAD", str "out", [str "a"], [str "a"], 0⟩
          ⟨str "D", str "a", []⟩ = Disposition.skippedIgnored := by
  have hm : (goMatch (str "a") (str "a")).matched = true := by
    simp [goMatch, scanChunk, scanTail, matchChunk, str, List.takeWhile, List.dropWhile,
      stripCaret, restValid, starLoop]
  refine ⟨?_, ?_, by decide, by decide⟩
  · simp [shouldIgnore, hm]
  · simp [shouldInclude, hm]

/-- Witness for C2 at a concrete modified change matching an ignore
pattern. -/
theorem ignore_overrides_include_witness :
    shouldIgnore ⟨str "HEAD", str "out", [str "a"], [], 0⟩ (str "a") = true ∧
      (classifyOne envTriv ⟨str "HEAD", str "out", [str "a"], [], 0⟩
          ⟨str "M", str "a", []⟩ ≠ Disposition.willExport ∧
        (¬ (⟨str "M", str "a", []⟩ : FileChange).status = StatusDeleted →
          ShouldCopy ⟨str "M", str "a", []⟩ = true →
          ((⟨str "HEAD", str "out", [str "a"], [], 0⟩ : Options).includePatterns = [] ∨
            shouldInclude ⟨str "HEAD", str "out", [str "a"], [], 0⟩ (str "a") = true) →
          classifyOne envTriv ⟨str "HEAD", str "out", [str "a"], [], 0⟩
            ⟨str "M", str "a", []⟩ = Disposition.skippedIgnored)) := by
  have hm : (goMatch (str "a") (str "a")).matched = true := by
    simp [goMatch, scanChunk, scanTail, matchChunk, str, List.takeWhile, List.dropWhile,
      stripCaret, restValid, starLoop]
  have hig : shouldIgnore ⟨str "HEAD", str "out", [str "a"], [], 0⟩ (str "a") = true := by
    simp [shouldIgnore, hm]
  exact ⟨hig, ignore_overrides_include envTriv _ _ hig⟩

/-! ### Claim C9 -/

theorem restValid_matched (p : List Char) : (restValid p).matched = false := by
  generalize hk : p.length = k
  induction k using Nat.strong_induction_on generalizing p with
  | _ k ih =>
    subst hk
    match p with
    | [] => simp [restValid]
    | p0 :: prest =>
      rw [restValid]
      split
      · rfl
      · exact ih (scanChunk (p0 :: prest)).2.2.length (scanChunk_length (by simp)) _ rfl

/-- Every `return` site of Go `Match` that carries a non-nil error
returns `matched = false`, so a pattern for which matching errors can
never report a match. -/
theorem goMatch_no_match_on_err (p s : List Char) :
    (goMatch p s).matched = false ∨ (goMatch p s).isErr = false := by
  generalize hk : p.length = k
  induction k using Nat.strong_induction_on generalizing p s with
  | _ k ih =>
    subst hk
    match p with
    | [] => right; simp [goMatch]
    | p0 :: prest =>
      rw [goMatch]
      split
      · right; rfl
      · split
        · left; rfl
        · split
          · exact ih (scanChunk (p0 :: prest)).2.2.length (scanChunk_length (by simp)) _ _ rfl
          · split
            · split
              · left; rfl
              · exact ih (scanChunk (p0 :: prest)).2.2.length
                  (scanChunk_length (by simp)) _ _ rfl
              · left; exact restValid_matched _
            · left; exact restValid_matched _

theorem goMatch_isErr_matched {p s : List Char}
    (h : (goMatch p s).isErr = true) : (goMatch p s).matched = false := by
  rcases goMatch_no_match_on_err p s with hm | he
  · exact hm
  · rw [he] at h
    exact absurd h (by simp)

/-- C9 (amended): a glob pattern for which matching reports an error is
treated as matching nothing: inserting it anywhere in the ignore list
never changes the ignore decision, and when it is the only include
pattern no file satisfies the include requirement, so every change that
passes the earlier deleted-status and copyable-status rules is
classified `skippedNotIncluded`. -/
theorem malformed_pattern_matches_nothing (env : Provider)
    (tc od : GoStr) (incs igs ps1 ps2 : List GoStr) (ms : Int)
    (pat : GoStr) (c : FileChange)
    (hbad1 : (goMatch pat c.path).isErr = true)
    (hbad2 : (goMatch pat (goBase c.path)).isErr = true) :
    shouldIgnore ⟨tc, od, ps1 ++ pat :: ps2, incs, ms⟩ c.path =
      shouldIgnore ⟨tc, od, ps1 ++ ps2, incs, ms⟩ c.path ∧
    shouldInclude ⟨tc, od, igs, [pat], ms⟩ c.path = false ∧
    (¬ c.status = StatusDeleted → ShouldCopy c = true →
      classifyOne env ⟨tc, od, igs, [pat], ms⟩ c = Disposition.skippedNotIncluded) := by
  have hm1 : (goMatch pat c.path).matched = false := goMatch_isErr_matched hbad1
  have hm2 : (goMatch pat (goBase c.path)).matched = false := goMatch_isErr_matched hbad2
  have hninc : shouldInclude ⟨tc, od, igs, [pat], ms⟩ c.path = false := by
    simp [shouldInclude, hm1, hm2]
  refine ⟨?_, hninc, ?_⟩
  · simp [shouldIgnore, hm1, hm2]
  · intro hdel hcopy
    simp [classifyOne, hdel, hcopy, hninc]

/-- Counterexample for C9 as stated: with the malformed pattern `"\"` as
the only include pattern, a deleted change is classified
`skippedDeleted`, not `skippedNotIncluded`. -/
theorem malformed_pattern_cex :
    (goMatch (str "\\") (str "gone.go")).isErr = true ∧
      (goMatch (str "\\") (goBase (str "gone.go"))).isErr = true ∧
      classifyOne envTriv ⟨str "HEAD", str "out", [], [str "\\"], 0⟩
          ⟨str "D", str "gone.go", []⟩ = Disposition.skippedDeleted ∧
      ¬ classifyOne envTriv ⟨str "HEAD", str "out", [], [str "\\"], 0⟩
          ⟨str "D", str "gone.go", []⟩ = Disposition.skippedNotIncluded := by
  refine ⟨?_, ?_, by decide, by decide⟩
  · simp [goMatch, scanChunk, scanTail, matchChunk, str, List.takeWhile, List.dropWhile,
      stripCaret, restValid, starLoop]
  · simp [goMatch, goBase, scanChunk, scanTail, matchChunk, str, List.takeWhile,
      List.dropWhile, stripCaret, restValid, starLoop]

/-- Witness for C9 on a concrete modified change and the malformed
pattern `"\"`. -/
theorem malformed_pattern_witness :
    ((goMatch (str "\\") (str "a.go")).isErr = true ∧
      (goMatch (str "\\") (goBase (str "a.go"))).isErr = true) ∧
      (shouldIgnore ⟨str "HEAD", str "out", [str "\\"], [], 0⟩ (str "a.go") =
          shouldIgnore ⟨str "HEAD", str "out", [], [], 0⟩ (str "a.go") ∧
        shouldInclude ⟨str "HEAD", str "out", [], [str "\\"], 0⟩ (str "a.go") = false ∧
        (¬ (⟨str "M", str "a.go", []⟩ : FileChange).status = StatusDeleted →
          ShouldCopy ⟨str "M", str "a.go", []⟩ = true →
          classifyOne envTriv ⟨str "HEAD", str "out", [], [str "\\"], 0⟩
            ⟨str "M", str "a.go", []⟩ = Disposition.skippedNotIncluded)) := by
  have hb1 : (goMatch (str "\\") (str "a.go")).isErr = true := by
    simp [goMatch, scanChunk, scanTail, matchChunk, str, List.takeWhile, List.dropWhile,
      stripCaret, restValid, starLoop]
  have hb2 : (goMatch (str "\\") (goBase (str "a.go"))).isErr = true := by
    simp [goMatch, goBase, scanChunk, scanTail, matchChunk, str, List.takeWhile,
      List.dropWhile, stripCaret, restValid, starLoop]
  exact ⟨⟨hb1, hb2⟩,
    malformed_pattern_matches_nothing envTriv (str "HEAD") (str "out") [] [] [] []
      0 (str "\\") ⟨str "M", str "a.go", []⟩ hb1 hb2⟩

/-! ### Claim C10 -/

/-- C10: in a tree-sink transfer, a file flagged as outside the tree
root at copy time is skipped with a nil result: no sink entry is
written and no error is recorded, the result does not depend on the
content-fetch function at all, and the file is counted as a success in
the transfer outcome. -/
theorem outside_root_copy_skipped (env : Provider) (opts : Options) (c : FileChange)
    (h : env.isFileOutsideRepo c.path = true) :
    CopyFile env opts c = Except.ok none ∧
      (∀ g, CopyFile ⟨g, env.isFileOutsideRepo, env.mkdirOk, env.writeOk,
        env.zipCreateOk, env.zipWriteOk⟩ opts c = Except.ok none) ∧
      copySequential env opts [c] = ⟨1, 0, [c.path], []⟩ := by
  refine ⟨by simp [CopyFile, h], fun g => by simp [CopyFile, h], ?_⟩
  simp [copySequential, copyStep, CopyFile, h]

/-- Witness for C10: a concrete environment flagging every path as
outside the repository while every fetch fails, showing the skip is
counted as a success without touching the fetch. -/
theorem outside_root_copy_skipped_witness :
    (⟨fun _ _ => Except.error (), fun _ => true, fun _ => true, fun _ => true,
        fun _ => true, fun _ => true⟩ : Provider).isFileOutsideRepo (str "x.go") = true ∧
      (CopyFile ⟨fun _ _ => Except.error (), fun _ => true, fun _ => true, fun _ => true,
          fun _ => true, fun _ => true⟩ optsDefault ⟨str "M", str "x.go", []⟩ =
        Except.ok none ∧
      copySequential ⟨fun _ _ => Except.error (), fun _ => true, fun _ => true,
          fun _ => true, fun _ => true, fun _ => true⟩ optsDefault
          [⟨str "M", str "x.go", []⟩] = ⟨1, 0, [str "x.go"], []⟩) := by
  have h := outside_root_copy_skipped
    ⟨fun _ _ => Except.error (), fun _ => true, fun _ => true, fun _ => true,
      fun _ => true, fun _ => true⟩ optsDefault ⟨str "M", str "x.go", []⟩ rfl
  exact ⟨rfl, h.1, h.2.2⟩

/-! ### Counter machinery shared by C6 and C1 -/

/-- Closed form of the `copySequential` fold: counters count the files
whose `CopyFile` succeeded/failed, and the records list their paths in
processing order. -/
theorem copy_foldl_closed (env : Provider) (opts : Options)
    (xs : List FileChange) (st : SeqState) :
    xs.foldl (copyStep env opts) st =
      ⟨st.successCount + (xs.countP fun f => (CopyFile env opts f).isOk),
        st.failedCount + (xs.countP fun f => !(CopyFile env opts f).isOk),
        st.successes ++ (xs.filter fun f => (CopyFile env opts f).isOk).map (·.path),
        st.failures ++ (xs.filter fun f => !(CopyFile env opts f).isOk).map (·.path)⟩ := by
  induction xs generalizing st with
  | nil => simp
  | cons x xs ihx =>
    rw [List.foldl_cons, ihx]
    rcases hcf : CopyFile env opts x with e | v <;>
      simp [copyStep, hcf, List.countP_cons, List.filter_cons, Except.isOk,
        Except.toBool] <;> omega

theorem countP_add_countP_not {α : Type} (p : α → Bool) (l : List α) :
    l.countP p + l.countP (fun a => !p a) = l.length := by
  induction l with
  | nil => simp
  | cons x xs ihx =>
    by_cases hx : p x = true <;> simp [List.countP_cons, hx] <;> omega

/-! ### Claim C6 -/

/-- C6: for every completed transfer of the export set, sequential or
parallel (the latter modeled as the per-file steps serialized in an
arbitrary interleaving order `sigma`, a permutation of the export set):
the counters are monotonically non-decreasing along every prefix of the
run, their sum never exceeds the export-set size, the final
`successCount + failedCount` equals the export-set size, and the success
and failure records together account for every path exactly once. -/
theorem transfer_counter_invariants (env : Provider) (opts : Options)
    (files sigma : List FileChange) (hperm : sigma.Perm files) :
    (∀ (gs : List FileChange) (k l : Nat), k ≤ l →
      (copySequential env opts (gs.take k)).successCount ≤
          (copySequential env opts (gs.take l)).successCount ∧
        (copySequential env opts (gs.take k)).failedCount ≤
          (copySequential env opts (gs.take l)).failedCount) ∧
    (∀ (gs : List FileChange) (k : Nat),
      (copySequential env opts (gs.take k)).successCount +
          (copySequential env opts (gs.take k)).failedCount ≤ gs.length) ∧
    ((copySequential env opts files).successCount +
        (copySequential env opts files).failedCount = files.length) ∧
    (((copySequential env opts files).successes ++
        (copySequential env opts files).failures).Perm (files.map (·.path))) ∧
    ((copyConcurrentRun env opts sigma).successCount =
        (copySequential env opts files).successCount ∧
      (copyConcurrentRun env opts sigma).failedCount =
        (copySequential env opts files).failedCount) ∧
    ((copyConcurrentRun env opts sigma).successCount +
        (copyConcurrentRun env opts sigma).failedCount = files.length) ∧
    (((copyConcurrentRun env opts sigma).successes ++
        (copyConcurrentRun env opts sigma).failures).Perm (files.map (·.path))) := by
  have hclosed : ∀ (gs : List FileChange),
      gs.foldl (copyStep env opts) ⟨0, 0, [], []⟩ =
        ⟨gs.countP fun f => (CopyFile env opts f).isOk,
          gs.countP fun f => !(CopyFile env opts f).isOk,
          (gs.filter fun f => (CopyFile env opts f).isOk).map (·.path),
          (gs.filter fun f => !(CopyFile env opts f).isOk).map (·.path)⟩ := by
    intro gs
    rw [copy_foldl_closed]
    simp
  have hmono : ∀ (gs : List FileChange) (k l : Nat), k ≤ l →
      (copySequential env opts (gs.take k)).successCount ≤
          (copySequential env opts (gs.take l)).successCount ∧
        (copySequential env opts (gs.take k)).failedCount ≤
          (copySequential env opts (gs.take l)).failedCount := by
    intro gs k l hkl
    rw [copySequential, copySequential, hclosed, hclosed]
    have hsplit : gs.take l = gs.take k ++ (gs.take l).drop k := by
      conv_lhs => rw [← List.take_append_drop k (gs.take l)]
      rw [List.take_take, Nat.min_eq_left hkl]
    rw [hsplit]
    constructor <;> simp [List.countP_append]
  have hsum : ∀ (gs : List FileChange),
      (copySequential env opts gs).successCount +
        (copySequential env opts gs).failedCount = gs.length := by
    intro gs
    rw [copySequential, hclosed]
    exact countP_add_countP_not _ gs
  have hrec : ∀ (gs : List FileChange),
      ((copySequential env opts gs).successes ++
        (copySequential env opts gs).failures).Perm (gs.map (·.path)) := by
    intro gs
    rw [copySequential, hclosed]
    rw [← List.map_append]
    exact (List.filter_append_perm (fun f => (CopyFile env opts f).isOk) gs).map (·.path)
  refine ⟨hmono, ?_, hsum files, hrec files, ?_, ?_, ?_⟩
  · intro gs k
    have h1 := hsum (gs.take k)
    have h2 : (gs.take k).length ≤ gs.length := by
      simp
    omega
  · rw [copyConcurrentRun, copySequential, hclosed, hclosed]
    exact ⟨hperm.countP_eq _, hperm.countP_eq _⟩
  · have h1 : (copyConcurrentRun env opts sigma) =
        copySequential env opts sigma := rfl
    rw [h1, hsum sigma, hperm.length_eq]
  · have h1 : (copyConcurrentRun env opts sigma) =
        copySequential env opts sigma := rfl
    rw [h1]
    exact (hrec sigma).trans (hperm.map (·.path))

/-- Witness for C6 on a two-file export set processed in reversed order
by the parallel run. -/
theorem transfer_counter_invariants_witness :
    ([(⟨str "M", str "b", []⟩ : FileChange), ⟨str "A", str "a", []⟩].Perm
        [⟨str "A", str "a", []⟩, ⟨str "M", str "b", []⟩]) ∧
      ((copySequential envTriv optsDefault
            [⟨str "A", str "a", []⟩, ⟨str "M", str "b", []⟩]).successCount +
          (copySequential envTriv optsDefault
            [⟨str "A", str "a", []⟩, ⟨str "M", str "b", []⟩]).failedCount = 2) ∧
      ((copyConcurrentRun envTriv optsDefault
            [⟨str "M", str "b", []⟩, ⟨str "A", str "a", []⟩]).successCount +
          (copyConcurrentRun envTriv optsDefault
            [⟨str "M", str "b", []⟩, ⟨str "A", str "a", []⟩]).failedCount = 2) := by
  have hperm : ([(⟨str "M", str "b", []⟩ : FileChange), ⟨str "A", str "a", []⟩].Perm
      [⟨str "A", str "a", []⟩, ⟨str "M", str "b", []⟩]) := List.Perm.swap _ _ _
  have h := transfer_counter_invariants envTriv optsDefault
    [⟨str "A", str "a", []⟩, ⟨str "M", str "b", []⟩]
    [⟨str "M", str "b", []⟩, ⟨str "A", str "a", []⟩] hperm
  exact ⟨hperm, h.2.2.1, h.2.2.2.2.2.1⟩

/-! ### Claim C1 -/

/-- The ZIP per-file loop completes normally whenever no archive-entry
write fails, recording every fetch failure and counting every file. -/
theorem exportToZip_fetch_tolerant (env : Provider) (opts : Options) :
    ∀ (files : List FileChange) (st : ZipState),
      (∀ f ∈ files, (env.getFileContent opts.toCommit f.path).isOk = true →
        env.zipCreateOk f.path = true ∧ env.zipWriteOk f.path = true) →
      ∃ st2, exportToZipFiles env opts files st = Except.ok st2 ∧
        st2.successCount + st2.failedCount =
          st.successCount + st.failedCount + files.length ∧
        st2.errors = st.errors ++
          (files.filter fun f => !(env.getFileContent opts.toCommit f.path).isOk).map
            (·.path) := by
  intro files
  induction files with
  | nil =>
    intro st _
    exact ⟨st, rfl, by simp, by simp⟩
  | cons x xs ihx =>
    intro st hwrites
    rcases hg : env.getFileContent opts.toCommit x.path with e | content
    · have hx : (env.getFileContent opts.toCommit x.path).isOk = false := by
        rw [hg]; rfl
      obtain ⟨st2, h1, h2, h3⟩ := ihx
        ⟨st.successCount, st.failedCount + 1, st.errors ++ [x.path], st.entries⟩
        (fun f hf => hwrites f (List.mem_cons_of_mem x hf))
      refine ⟨st2, ?_, by simp at h2 ⊢; omega, ?_⟩
      · rw [exportToZipFiles, hg]
        exact h1
      · rw [h3]
        simp [List.filter_cons, hx]
    · have hx : (env.getFileContent opts.toCommit x.path).isOk = true := by
        rw [hg]; rfl
      obtain ⟨hc, hw⟩ := hwrites x (List.mem_cons_self x xs) hx
      obtain ⟨st2, h1, h2, h3⟩ := ihx
        ⟨st.successCount + 1, st.failedCount, st.errors,
          st.entries ++ [(x.path, content)]⟩
        (fun f hf => hwrites f (List.mem_cons_of_mem x hf))
      refine ⟨st2, ?_, by simp at h2 ⊢; omega, ?_⟩
      · rw [exportToZipFiles, hg]
        simp [hc, hw]
        exact h1
      · rw [h3]
        simp [List.filter_cons, hx]

/-- C1 (amended): content-fetch failures are per-file recoverable in
every sink — recorded in the outcome while the remaining files are still
processed — and for the tree sink per-file write failures are
recoverable as well (`copySequential` always processes every file and
accounts for each in the counters and the error list).  For the ZIP
sink the loop completes with every fetch failure recorded provided no
archive-entry write fails; an entry-write failure itself is not
per-file recoverable (see the counterexample). -/
theorem per_file_failure_tolerance (env : Provider) (opts : Options)
    (files : List FileChange) (st : ZipState)
    (hwrites : ∀ f ∈ files, (env.getFileContent opts.toCommit f.path).isOk = true →
      env.zipCreateOk f.path = true ∧ env.zipWriteOk f.path = true) :
    ((copySequential env opts files).successCount +
        (copySequential env opts files).failedCount = files.length) ∧
    ((copySequential env opts files).failures =
      (files.filter fun f => !(CopyFile env opts f).isOk).map (·.path)) ∧
    (∃ st2, exportToZipFiles env opts files st = Except.ok st2 ∧
      st2.successCount + st2.failedCount =
        st.successCount + st.failedCount + files.length ∧
      st2.errors = st.errors ++
        (files.filter fun f => !(env.getFileContent opts.toCommit f.path).isOk).map
          (·.path)) := by
  refine ⟨?_, ?_, exportToZip_fetch_tolerant env opts files st hwrites⟩
  · rw [copySequential, copy_foldl_closed]
    simp
    exact countP_add_countP_not _ files
  · rw [copySequential, copy_foldl_closed]
    simp

/-- Counterexample for C1 as stated: in the ZIP sink a write failure for
the first file aborts the batch immediately — the loop returns an error
with nothing recorded in the outcome and the second file never
processed, instead of recording the failure and continuing. -/
theorem per_file_failure_tolerance_cex :
    exportToZipFiles
        ⟨fun _ _ => Except.ok [], fun _ => false, fun _ => true, fun _ => true,
          fun _ => false, fun _ => true⟩ optsDefault
        [⟨str "M", str "a", []⟩, ⟨str "M", str "b", []⟩] ⟨0, 0, [], []⟩ =
      Except.error ⟨0, 0, [], []⟩ := rfl

/-- Witness for C1: one fetch-failing file between two good ones; both
sinks process all three files and record exactly the one failure. -/
theorem per_file_failure_tolerance_witness :
    (∀ f ∈ [(⟨str "A", str "a", []⟩ : FileChange), ⟨str "M", str "bad", []⟩,
        ⟨str "M", str "c", []⟩],
      ((⟨fun _ p => if p = str "bad" then Except.error () else Except.ok [1],
          fun _ => false, fun _ => true, fun _ => true, fun _ => true,
          fun _ => true⟩ : Provider).getFileContent optsDefault.toCommit f.path).isOk =
          true →
        (⟨fun _ p => if p = str "bad" then Except.error () else Except.ok [1],
          fun _ => false, fun _ => true, fun _ => true, fun _ => true,
          fun _ => true⟩ : Provider).zipCreateOk f.path = true ∧
        (⟨fun _ p => if p = str "bad" then Except.error () else Except.ok [1],
          fun _ => false, fun _ => true, fun _ => true, fun _ => true,
          fun _ => true⟩ : Provider).zipWriteOk f.path = true) ∧
    ((copySequential
        ⟨fun _ p => if p = str "bad" then Except.error () else Except.ok [1],
          fun _ => false, fun _ => true, fun _ => true, fun _ => true, fun _ => true⟩
        optsDefault
        [⟨str "A", str "a", []⟩, ⟨str "M", str "bad", []⟩,
          ⟨str "M", str "c", []⟩]).successCount +
      (copySequential
        ⟨fun _ p => if p = str "bad" then Except.error () else Except.ok [1],
          fun _ => false, fun _ => true, fun _ => true, fun _ => true, fun _ => true⟩
        optsDefault
        [⟨str "A", str "a", []⟩, ⟨str "M", str "bad", []⟩,
          ⟨str "M", str "c", []⟩]).failedCount = 3) ∧
    (∃ st2, exportToZipFiles
        ⟨fun _ p => if p = str "bad" then Except.error () else Except.ok [1],
          fun _ => false, fun _ => true, fun _ => true, fun _ => true, fun _ => true⟩
        optsDefault
        [⟨str "A", str "a", []⟩, ⟨str "M", str "bad", []⟩, ⟨str "M", str "c", []⟩]
        ⟨0, 0, [], []⟩ = Except.ok st2 ∧
      st2.successCount + st2.failedCount = 0 + 0 + 3 ∧
      st2.errors = [] ++
        ([(⟨str "A", str "a", []⟩ : FileChange), ⟨str "M", str "bad", []⟩,
          ⟨str "M", str "c", []⟩].filter fun f =>
            !((⟨fun _ p => if p = str "bad" then Except.error () else Except.ok [1],
                fun _ => false, fun _ => true, fun _ => true, fun _ => true,
                fun _ => true⟩ : Provider).getFileContent optsDefault.toCommit
                f.path).isOk).map (·.path)) := by
  have h := per_file_failure_tolerance
    ⟨fun _ p => if p = str "bad" then Except.error () else Except.ok [1],
      fun _ => false, fun _ => true, fun _ => true, fun _ => true, fun _ => true⟩
    optsDefault
    [⟨str "A", str "a", []⟩, ⟨str "M", str "bad", []⟩, ⟨str "M", str "c", []⟩]
    ⟨0, 0, [], []⟩ (by decide)
  exact ⟨by decide, h.1, h.2.2⟩

/-! ### Manifest rendering lemmas -/

/-- A list of lines rendered the way `Generate` builds its string: each
line followed by a newline, all concatenated. -/
def blockOf (L : List GoStr) : GoStr := (L.map fun l => l ++ ['\n']).flatten

theorem blockOf_append (L1 L2 : List GoStr) :
    blockOf (L1 ++ L2) = blockOf L1 ++ blockOf L2 := by
  simp [blockOf]

theorem blockOf_suffix {L : List GoStr} (h : L ≠ []) : ['\n'] <:+ blockOf L := by
  induction L with
  | nil => exact absurd rfl h
  | cons x xs ihx =>
    match xs with
    | [] =>
      refine ⟨x, ?_⟩
      simp [blockOf]
    | y :: ys =>
      obtain ⟨t, ht⟩ := ihx (by simp)
      refine ⟨x ++ ['\n'] ++ t, ?_⟩
      have hb : blockOf (x :: y :: ys) = x ++ ['\n'] ++ blockOf (y :: ys) := by
        simp [blockOf]
      rw [hb, ← ht]
      simp

theorem goTrimSuffix_append (a b suf : GoStr) (h : suf <:+ b) :
    goTrimSuffix (a ++ b) suf = a ++ goTrimSuffix b suf := by
  obtain ⟨t, rfl⟩ := h
  have h1 : suf.isSuffixOf (a ++ (t ++ suf)) = true := by
    rw [List.isSuffixOf_iff_suffix]
    exact ⟨a ++ t, by simp⟩
  have h2 : suf.isSuffixOf (t ++ suf) = true := by
    rw [List.isSuffixOf_iff_suffix]
    exact ⟨t, rfl⟩
  rw [goTrimSuffix, goTrimSuffix, if_pos h1, if_pos h2]
  have h3 : (a ++ (t ++ suf)).length - suf.length = (a ++ t).length := by
    simp
    omega
  have h4 : (t ++ suf).length - suf.length = t.length := by
    simp
  rw [h3, h4, ← List.append_assoc, List.take_left (a ++ t) suf, List.take_left t suf]

theorem trim_blockOf (L : List GoStr) :
    goTrimSuffix (blockOf L) ['\n'] = joinNl L := by
  induction L with
  | nil => simp [blockOf, goTrimSuffix, joinNl]
  | cons x xs ihx =>
    match xs with
    | [] =>
      have hb : blockOf [x] = x ++ ['\n'] := by simp [blockOf]
      have h1 : (['\n'] : GoStr).isSuffixOf (x ++ ['\n']) = true := by
        rw [List.isSuffixOf_iff_suffix]
        exact ⟨x, rfl⟩
      rw [hb, joinNl, goTrimSuffix, if_pos h1]
      simp [List.take_left]
    | y :: ys =>
      have hb : blockOf (x :: y :: ys) = (x ++ ['\n']) ++ blockOf (y :: ys) := by
        simp [blockOf]
      rw [hb, goTrimSuffix_append _ _ _ (blockOf_suffix (by simp)), ihx]
      have hj : joinNl (x :: y :: ys) = x ++ '\n' :: joinNl (y :: ys) := rfl
      rw [hj]
      simp

/-- The bridge between one `Generate` section and the corresponding
specification section rendered as lines.  `hdrNl` is the header line as
`Generate` writes it, newline included. -/
theorem section_block (hdrNl hdr : GoStr) (hEq : hdrNl = hdr ++ ['\n'])
    (B : List GoStr) :
    (if B = [] then [] else
      hdrNl ++ (B.map fun f => str "- " ++ f ++ str "\n").flatten) =
      blockOf (specSection hdr B) := by
  by_cases hB : B = []
  · simp [hB, specSection, blockOf]
  · rw [if_neg hB, specSection, if_neg hB]
    have h2 : blockOf (hdr :: B.map fun e => str "- " ++ e) =
        (hdr ++ ['\n']) ++ blockOf (B.map fun e => str "- " ++ e) := by
      simp [blockOf]
    rw [hEq, h2, blockOf]
    have h3 : ((B.map fun e => str "- " ++ e).map fun l => l ++ ['\n']) =
        B.map fun f => str "- " ++ f ++ str "\n" := by
      rw [List.map_map]
      apply List.map_congr_left
      intro a _
      simp [str]
    rw [h3]

theorem goStrLe_cons (x y : Char) (xs ys : GoStr) :
    goStrLe (x :: xs) (y :: ys) =
      if x.toNat < y.toNat then true
      else if y.toNat < x.toNat then false
      else goStrLe xs ys := by
  rw [goStrLe.eq_def]

theorem goStrLe_trans : ∀ (a b c : GoStr),
    goStrLe a b = true → goStrLe b c = true → goStrLe a c = true := by
  intro a
  induction a with
  | nil => intro b c _ _; rfl
  | cons x xs ih =>
    intro b c h1 h2
    match b, c with
    | [], _ => simp [goStrLe] at h1
    | y :: ys, [] => simp [goStrLe] at h2
    | y :: ys, z :: zs =>
      rw [goStrLe_cons] at h1 h2 ⊢
      split_ifs at h1 h2 ⊢ <;>
        first
          | rfl
          | (exfalso; omega)
          | (exact ih ys zs h1 h2)

theorem goStrLe_total : ∀ (a b : GoStr),
    (goStrLe a b || goStrLe b a) = true := by
  intro a
  induction a with
  | nil => intro b; rfl
  | cons x xs ih =>
    intro b
    match b with
    | [] => rfl
    | y :: ys =>
      rw [goStrLe_cons, goStrLe_cons]
      split_ifs <;>
        first
          | rfl
          | (exact ih ys)

/-- The manifest buckets are sorted ascending in the byte-wise
lexicographic order of `sort.Strings`. -/
theorem sortGo_sorted (l : List GoStr) :
    (sortGo l).Pairwise (fun a b => goStrLe a b = true) := by
  exact List.sorted_mergeSort
    (fun a b c h1 h2 => goStrLe_trans a b c h1 h2)
    (fun a b => goStrLe_total a b) l

/-! ### Claim C7 -/

/-- C7: the generated manifest equals the specification rendering — the
status groups in the fixed order new files, modified, renamed, deleted,
each emitted only when non-empty as a header followed by `- entry`
lines, renamed entries formatted `path (previously oldPath)`, all lines
joined by single newlines with no trailing blank line — and every
emitted bucket is sorted lexicographically ascending. -/
theorem manifest_format (changes : List FileChange) :
    Generate changes = manifestSpec changes ∧
      ∀ l : List GoStr, (sortGo l).Pairwise fun a b => goStrLe a b = true := by
  refine ⟨?_, fun l => sortGo_sorted l⟩
  simp only [Generate, manifestSpec]
  generalize sortGo ((changes.filter fun c => c.status = str "A").map (·.path)) = newB
  generalize sortGo ((changes.filter fun c => c.status = str "M").map (·.path)) = modB
  generalize sortGo ((changes.filter fun c => c.status = str "R").map
    fun c => c.path ++ str " (previously " ++ c.oldPath ++ str ")") = renB
  generalize sortGo ((changes.filter fun c => c.status = str "D").map (·.path)) = delB
  rw [section_block (str "new files:\n") (str "new files:") (by decide) newB,
    section_block (str "modified:\n") (str "modified:") (by decide) modB,
    section_block (str "renamed:\n") (str "renamed:") (by decide) renB,
    section_block (str "deleted:\n") (str "deleted:") (by decide) delB,
    ← blockOf_append, ← blockOf_append, ← blockOf_append]
  exact trim_blockOf _

/-! ### Claim C8 -/

theorem filter_status_drop_copied (changes : List FileChange) (st : GoStr)
    (hne : ¬ st = str "C") :
    ((changes.filter fun c => ¬ c.status = str "C").filter fun c => c.status = st) =
      changes.filter fun c => c.status = st := by
  rw [List.filter_filter]
  apply List.filter_congr
  intro a _
  by_cases ha : a.status = st
  · have hac : ¬ a.status = str "C" := by rw [ha]; exact hne
    simp [ha, hac, hne]
  · simp [ha]

/-- C8 (amended): status-Copied changes are omitted from the manifest
entirely — generating the manifest of any change list gives the same
text as generating it with all copied changes removed, so no bucket
(renamed or otherwise) ever reports them. -/
theorem copied_omitted_from_manifest (changes : List FileChange) :
    Generate changes = Generate (changes.filter fun c => ¬ c.status = str "C") := by
  rw [Generate, Generate,
    filter_status_drop_copied changes (str "A") (by decide),
    filter_status_drop_copied changes (str "M") (by decide),
    filter_status_drop_copied changes (str "R") (by decide),
    filter_status_drop_copied changes (str "D") (by decide)]

/-- Counterexample for C8 as stated: a change list holding one copied
file generates the empty manifest — the copied file is not reported in
the renamed bucket (or anywhere); its path does not even occur in the
output. -/
theorem copied_in_renamed_cex :
    Generate [⟨str "C", str "b.go", str "a.go"⟩] = [] ∧
      (str "b.go" : GoStr) ≠ [] := by
  constructor
  · simp [Generate, sortGo, goTrimSuffix, str]
  · decide
